import Mathlib

/-!
Verification of the habit-tracker statistics engine (`app.py`).

Calendar dates are modelled as integer day numbers (proleptic Gregorian
ordinals, as in Python `date.toordinal()`): `datetime.date` subtraction
`(a - b).days` becomes integer subtraction, `date - timedelta(days=k)`
becomes `d - k`, and SQLite `strftime('%w', date)` (0 = Sunday) is the
ordinal modulo 7 (ordinal 1 = 0001-01-01, a Monday, and 1 % 7 = 1 = Monday
in the `%w` convention).  Python `round(x, 1)` is modelled over `ℚ` with
round-half-to-even at one decimal.  A record row is a `(date, completed)`
pair; the `notes` column plays no role in any statistic.
-/

/-- A row of the `records` table restricted to the columns the statistics
read: the date and the `completed` flag. -/
abbrev Record := ℤ × Bool

/-- Result shape of `calculate_streak`: the dict `{'current': _, 'best': _}`. -/
structure StreakResult where
  current : ℕ
  best : ℕ
deriving DecidableEq, Repr

/-- The query in `calculate_streak` (app.py lines 132-136):
`SELECT date FROM records WHERE habit_id = ? AND completed = 1 ORDER BY date DESC`.
Filters the completed rows and sorts their dates descending. -/
def completedDatesDesc (records : List Record) : List ℤ :=
  List.insertionSort (· ≥ ·) ((records.filter (·.2)).map (·.1))

/-- The current-streak loop of `calculate_streak` (app.py lines 145-152):
`expected_date = today - timedelta(days=current_streak)`; a matching row
increments `current_streak`, the first mismatch breaks. -/
def currentLoop (today : ℤ) : List ℤ → ℕ → ℕ
  | [], c => c
  | d :: ds, c => if d = today - c then currentLoop today ds (c + 1) else c

/-- The best-streak loop of `calculate_streak` (app.py lines 155-165):
state is `(prev_date, temp_streak, best_streak)`; a first row or a row one
day before `prev_date` extends the run and folds it into `best_streak`,
any other row resets `temp_streak` to 1. -/
def bestLoop : List ℤ → Option ℤ → ℕ → ℕ → ℕ
  | [], _, _, best => best
  | d :: ds, none, temp, best =>
      bestLoop ds (some d) (temp + 1) (max best (temp + 1))
  | d :: ds, some p, temp, best =>
      if p - d = 1 then bestLoop ds (some d) (temp + 1) (max best (temp + 1))
      else bestLoop ds (some d) 1 best

/-- `calculate_streak` (app.py lines 121-167) as a function of the habit's
record rows and the reference date `today`.  Empty completed history
returns `{'current': 0, 'best': 0}` (lines 141-142); otherwise the two
loops run over the descending dates and the result is
`{'current': current, 'best': max(best, current)}` (line 167). -/
def calculate_streak (records : List Record) (today : ℤ) : StreakResult :=
  let dates := completedDatesDesc records
  if dates = [] then ⟨0, 0⟩
  else ⟨currentLoop today dates 0,
        max (bestLoop dates none 0 0) (currentLoop today dates 0)⟩

/-- Round-half-to-even to an integer, the behaviour of Python `round`
(floats are modelled as exact rationals). -/
def roundHalfEven (q : ℚ) : ℤ :=
  let f := ⌊q⌋
  let frac := q - f
  if frac < 1 / 2 then f
  else if 1 / 2 < frac then f + 1
  else if f % 2 = 0 then f else f + 1

/-- Python `round(x, 1)` over exact rationals. -/
def round1 (q : ℚ) : ℚ := (roundHalfEven (q * 10) : ℚ) / 10

/-- `get_completion_rate` (app.py lines 169-184).
`start_date = today - days`; the query counts rows with
`date >= start_date AND completed = 1`; the result is
`round(completed / days * 100, 1)`.  The Python division raises
`ZeroDivisionError` when `days = 0` (there is no guard in the source),
modelled as `none`. -/
def get_completion_rate (records : List Record) (today : ℤ) (days : ℕ) : Option ℚ :=
  let start_date := today - days
  let completed := (records.filter (fun r => decide (start_date ≤ r.1) && r.2)).length
  if days = 0 then none
  else some (round1 ((completed : ℚ) / (days : ℚ) * 100))

/-- SQLite weekday bucket `CAST(strftime('%w', date) AS INTEGER)` of a day
ordinal: 0 = Sunday, ..., 6 = Saturday. -/
def weekday (d : ℤ) : ℕ := (d % 7).toNat

/-- Number of completed rows of the habit falling on weekday bucket `w`
(the `COUNT(*)` of the `GROUP BY weekday` query in `get_best_weekday`). -/
def weekdayCount (records : List Record) (w : ℕ) : ℕ :=
  (records.filter (fun r => r.2 && (weekday r.1 == w))).length

/-- The bucket `ORDER BY count DESC LIMIT 1` selects: a weekday whose
count is maximal.  SQLite leaves the tie-break unspecified; the model
uses the deterministic lowest-index-wins rule (any row the engine could
return has the same, maximal, count). -/
def bestWeekdayIndex (records : List Record) : ℕ :=
  (List.range 7).foldl
    (fun acc w => if weekdayCount records acc < weekdayCount records w then w else acc) 0

/-- The weekday labels of `get_best_weekday` (app.py line 206), indexed by
the `%w` bucket. -/
def weekdays : List String :=
  ["Domingo", "Segunda", "Terça", "Quarta", "Quinta", "Sexta", "Sábado"]

/-- `get_best_weekday` (app.py lines 186-209): `None` when the habit has
no completed rows, otherwise the label of a maximal weekday bucket. -/
def get_best_weekday (records : List Record) : Option String :=
  if records.filter (·.2) = [] then none
  else some (weekdays.getD (bestWeekdayIndex records) "")

/-- A habit row as the overview query sees it: its `active` flag and its
record rows. -/
structure Habit where
  active : Bool
  records : List Record
deriving DecidableEq

/-- Result shape of `get_overview_stats`. -/
structure Overview where
  total_habits : ℕ
  completed_today : ℕ
  completion_rate_today : ℚ
  average_streak : ℚ
  total_completions : ℕ

/-- `get_overview_stats` (app.py lines 453-495) over the habit table:
`total_habits` counts active habits; `completed_today` counts distinct
habits having a completed row dated today (all habits, active or not);
`completion_rate_today = round(completed_today / total_habits * 100, 1)`
guarded to 0 when `total_habits = 0`; `average_streak` averages the
current streaks of the active habits, guarded to 0 when there are none;
`total_completions` counts all completed rows. -/
def get_overview_stats (habits : List Habit) (today : ℤ) : Overview :=
  let active := habits.filter (·.active)
  let total_habits := active.length
  let completed_today :=
    (habits.filter (fun h => h.records.any (fun r => decide (r.1 = today) && r.2))).length
  let total_streak := (active.map (fun h => (calculate_streak h.records today).current)).sum
  { total_habits := total_habits
    completed_today := completed_today
    completion_rate_today :=
      if 0 < total_habits then round1 ((completed_today : ℚ) / (total_habits : ℚ) * 100)
      else 0
    average_streak :=
      if active = [] then 0
      else round1 ((total_streak : ℚ) / (active.length : ℚ))
    total_completions := (habits.map (fun h => (h.records.filter (·.2)).length)).sum }

/-- The spec's phrasing of the current-streak walk (§4.1 step 4): an
explicit `expected` that starts at `today` and is decremented by one day
at each match, the first mismatch ending the walk. -/
def currentSpecWalk (expected : ℤ) : List ℤ → ℕ
  | [] => 0
  | d :: ds => if d = expected then currentSpecWalk (expected - 1) ds + 1 else 0

/-- The spec's `temp` sequence for the best-streak walk (§4.3 steps 1-2),
continuing from previous date `p` and previous run length `t`. -/
def tempsFrom (p : ℤ) (t : ℕ) : List ℤ → List ℕ
  | [] => []
  | d :: ds =>
      let t' := if p - d = 1 then t + 1 else 1
      t' :: tempsFrom d t' ds

/-- The spec's `temp` sequence over a full descending walk: 1 at the
first date, then `tempsFrom`. -/
def temps : List ℤ → List ℕ
  | [] => []
  | d :: ds => 1 :: tempsFrom d 1 ds

/-- The spec's `best`: the maximum `temp` seen across the walk. -/
def maxTempSpec (l : List ℤ) : ℕ := (temps l).foldr max 0

/-- The spec's `countCompletedSince` store interface (§6): the number of
completed rows dated on or after `since`. -/
def countCompletedSince (records : List Record) (since : ℤ) : ℕ :=
  (records.filter (fun r => r.2 && decide (since ≤ r.1))).length

/-! ### Lemmas on the streak loops -/

lemma currentLoop_eq (t : ℤ) (l : List ℤ) : ∀ c : ℕ,
    currentLoop t l c = c + currentSpecWalk (t - c) l := by
  induction l with
  | nil => intro c; simp [currentLoop, currentSpecWalk]
  | cons d ds ih =>
    intro c
    by_cases h : d = t - c
    · have hc : t - ((c : ℤ) + 1) = t - c - 1 := by ring
      simp only [currentLoop, currentSpecWalk, if_pos h, ih (c + 1)]
      push_cast [hc]
      omega
    · simp [currentLoop, currentSpecWalk, h]

lemma currentSpecWalk_eq_zero {e : ℤ} {l : List ℤ} (h : e ∉ l) :
    currentSpecWalk e l = 0 := by
  cases l with
  | nil => rfl
  | cons d ds =>
    have hd : d ≠ e := fun hde => h (hde ▸ List.mem_cons_self d ds)
    simp [currentSpecWalk, hd]

lemma bestLoop_some (l : List ℤ) : ∀ (p : ℤ) (t b : ℕ), 1 ≤ b →
    bestLoop l (some p) t b = max b ((tempsFrom p t l).foldr max 0) := by
  induction l with
  | nil => intro p t b _; simp [bestLoop, tempsFrom]
  | cons d ds ih =>
    intro p t b hb
    by_cases h : p - d = 1
    · simp only [bestLoop, tempsFrom, if_pos h, List.foldr_cons]
      rw [ih d (t + 1) (max b (t + 1)) (le_trans hb (le_max_left _ _))]
      omega
    · simp only [bestLoop, tempsFrom, if_neg h, List.foldr_cons]
      rw [ih d 1 b hb]
      omega

lemma bestLoop_eq (l : List ℤ) : bestLoop l none 0 0 = maxTempSpec l := by
  cases l with
  | nil => rfl
  | cons d ds =>
    show bestLoop ds (some d) 1 1 = maxTempSpec (d :: ds)
    rw [bestLoop_some ds d 1 1 (le_refl 1)]
    simp only [maxTempSpec, temps, List.foldr_cons]

lemma currentSpecWalk_le_aux (l : List ℤ) : ∀ (p : ℤ) (t : ℕ),
    currentSpecWalk (p - 1) l + t ≤ max t ((tempsFrom p t l).foldr max 0) := by
  induction l with
  | nil => intro p t; simp [currentSpecWalk, tempsFrom]
  | cons d ds ih =>
    intro p t
    by_cases h : d = p - 1
    · have hpd : p - d = 1 := by omega
      have hrw : p - 1 - 1 = d - 1 := by omega
      simp only [currentSpecWalk, if_pos h, hrw, tempsFrom, if_pos hpd, List.foldr_cons]
      have hih := ih d (t + 1)
      omega
    · simp only [currentSpecWalk, if_neg h]
      omega

lemma currentSpecWalk_le (e : ℤ) (l : List ℤ) :
    currentSpecWalk e l ≤ maxTempSpec l := by
  cases l with
  | nil => simp [currentSpecWalk, maxTempSpec, temps]
  | cons d ds =>
    by_cases h : d = e
    · subst h
      have hih := currentSpecWalk_le_aux ds d 1
      simp only [currentSpecWalk, maxTempSpec, temps, List.foldr_cons, if_true]
      omega
    · simp [currentSpecWalk, h]

lemma calculate_streak_current (records : List Record) (today : ℤ) :
    (calculate_streak records today).current =
      currentSpecWalk today (completedDatesDesc records) := by
  unfold calculate_streak
  by_cases h : completedDatesDesc records = []
  · simp [h, currentSpecWalk]
  · simpa [h] using currentLoop_eq today (completedDatesDesc records) 0

lemma calculate_streak_best (records : List Record) (today : ℤ) :
    (calculate_streak records today).best =
      maxTempSpec (completedDatesDesc records) := by
  unfold calculate_streak
  by_cases h : completedDatesDesc records = []
  · simp [h, maxTempSpec, temps]
  · have h1 := bestLoop_eq (completedDatesDesc records)
    have h2 := currentLoop_eq today (completedDatesDesc records) 0
    have h3 := currentSpecWalk_le (today - (0 : ℕ)) (completedDatesDesc records)
    simp only [if_neg h, h1, h2]
    omega

/-! ### Lemmas on rounding -/

lemma floor_le_roundHalfEven (q : ℚ) : ⌊q⌋ ≤ roundHalfEven q := by
  simp only [roundHalfEven]
  split_ifs <;> omega

lemma roundHalfEven_le_ceil (q : ℚ) : roundHalfEven q ≤ ⌈q⌉ := by
  have hfc : ⌊q⌋ ≤ ⌈q⌉ := Int.floor_le_ceil q
  have hkey : (⌊q⌋ : ℚ) < q → ⌊q⌋ + 1 ≤ ⌈q⌉ := by
    intro hlt
    have h1 : (⌊q⌋ : ℚ) < (⌈q⌉ : ℚ) := lt_of_lt_of_le hlt (Int.le_ceil q)
    have h2 : ⌊q⌋ < ⌈q⌉ := by exact_mod_cast h1
    omega
  simp only [roundHalfEven]
  split_ifs with h1 h2 h3
  · exact hfc
  · exact hkey (by linarith)
  · exact hfc
  · have h4 : (1 : ℚ) / 2 ≤ q - ⌊q⌋ := le_of_not_lt h1
    exact hkey (by linarith)

lemma round1_nonneg {q : ℚ} (h : 0 ≤ q) : 0 ≤ round1 q := by
  unfold round1
  have h10 : (0 : ℚ) ≤ q * 10 := by linarith
  have hf : (0 : ℤ) ≤ ⌊q * 10⌋ := Int.floor_nonneg.mpr h10
  have hr : (0 : ℤ) ≤ roundHalfEven (q * 10) :=
    le_trans hf (floor_le_roundHalfEven (q * 10))
  have hq : (0 : ℚ) ≤ (roundHalfEven (q * 10) : ℚ) := by exact_mod_cast hr
  linarith

lemma round1_le_hundred {q : ℚ} (h : q ≤ 100) : round1 q ≤ 100 := by
  unfold round1
  have h1 : q * 10 ≤ 1000 := by linarith
  have h3 : ⌈q * 10⌉ ≤ (1000 : ℤ) := Int.ceil_le.mpr (by push_cast; linarith)
  have h4 : roundHalfEven (q * 10) ≤ (1000 : ℤ) :=
    le_trans (roundHalfEven_le_ceil (q * 10)) h3
  have h5 : (roundHalfEven (q * 10) : ℚ) ≤ 1000 := by exact_mod_cast h4
  linarith

/-! ### Lemmas on the weekday argmax fold -/

lemma foldl_argmax_le (f : ℕ → ℕ) (l : List ℕ) : ∀ a : ℕ,
    f a ≤ f (l.foldl (fun acc y => if f acc < f y then y else acc) a) := by
  induction l with
  | nil => intro a; exact le_refl _
  | cons x l ih =>
    intro a
    simp only [List.foldl_cons]
    by_cases h : f a < f x
    · simpa [h] using le_trans (le_of_lt h) (ih x)
    · simpa [h] using ih a

lemma foldl_argmax_mem (f : ℕ → ℕ) (l : List ℕ) : ∀ (a w : ℕ), w ∈ l →
    f w ≤ f (l.foldl (fun acc y => if f acc < f y then y else acc) a) := by
  induction l with
  | nil => intro a w hw; cases hw
  | cons x l ih =>
    intro a w hw
    simp only [List.foldl_cons]
    rcases List.mem_cons.mp hw with rfl | hw2
    · by_cases h : f a < f w
      · simpa [h] using foldl_argmax_le f l w
      · simpa [h] using le_trans (le_of_not_lt h) (foldl_argmax_le f l a)
    · by_cases h : f a < f x
      · simpa [h] using ih x w hw2
      · simpa [h] using ih a w hw2

/-! ### Lemmas on the descending date list -/

lemma completedDatesDesc_sorted (records : List Record) :
    List.Sorted (· ≥ ·) (completedDatesDesc records) :=
  List.sorted_insertionSort _ _

lemma mem_completedDatesDesc {records : List Record} {d : ℤ} :
    d ∈ completedDatesDesc records ↔ (d, true) ∈ records := by
  unfold completedDatesDesc
  rw [(List.perm_insertionSort _ _).mem_iff]
  simp only [List.mem_map, List.mem_filter]
  constructor
  · rintro ⟨⟨d1, b⟩, ⟨hmem, hb⟩, rfl⟩
    simp only at hb
    subst hb
    exact hmem
  · intro hmem
    exact ⟨(d, true), ⟨hmem, rfl⟩, rfl⟩

/-! ### The claims -/

/-- C1: for every history and reference date, the current streak is the
descending walk with `expected` initialized to `today`, each matching date
incrementing the count and moving `expected` back one day, the first
mismatch stopping the walk; in particular, when `today` has no completed
record, the current streak is 0 even if an unbroken streak ends at
yesterday. -/
theorem current_streak_walk_and_today_missing (records : List Record) (today : ℤ) :
    (calculate_streak records today).current =
      currentSpecWalk today (completedDatesDesc records) ∧
    (today ∉ completedDatesDesc records →
      (calculate_streak records today).current = 0) := by
  refine ⟨calculate_streak_current records today, fun h => ?_⟩
  rw [calculate_streak_current]
  exact currentSpecWalk_eq_zero h

/-- C1 witness: a habit completed yesterday and the two days before, but
not today, follows the walk and has current streak 0. -/
theorem current_streak_walk_and_today_missing_witness :
    (calculate_streak [((9 : ℤ), true), (8, true), (7, true)] 10).current =
      currentSpecWalk 10 (completedDatesDesc [((9 : ℤ), true), (8, true), (7, true)]) ∧
    (calculate_streak [((9 : ℤ), true), (8, true), (7, true)] 10).current = 0 :=
  ⟨(current_streak_walk_and_today_missing [((9 : ℤ), true), (8, true), (7, true)] 10).1,
   (current_streak_walk_and_today_missing [((9 : ℤ), true), (8, true), (7, true)] 10).2
     (by decide)⟩

/-- C2: for a non-empty completed history, the returned best streak is the
maximum of the `temp` run lengths over the descending walk (the final
`max(best, current)` never changes it, because `current` is itself the
length of one of the runs). -/
theorem best_streak_eq_max_temp (records : List Record) (today : ℤ)
    (h : completedDatesDesc records ≠ []) :
    (calculate_streak records today).best = maxTempSpec (completedDatesDesc records) :=
  calculate_streak_best records today

/-- C2 witness: completions on 2024-01-01, 01-02, 01-03 and 01-05
(ordinals 738886-738888 and 738890) with today = 2024-01-05 give
current = 1 and best = 3. -/
theorem best_streak_eq_max_temp_witness :
    calculate_streak [((738886 : ℤ), true), (738887, true), (738888, true), (738890, true)]
        738890 = ⟨1, 3⟩ ∧
    (calculate_streak [((738886 : ℤ), true), (738887, true), (738888, true), (738890, true)]
        738890).best =
      maxTempSpec (completedDatesDesc
        [((738886 : ℤ), true), (738887, true), (738888, true), (738890, true)]) :=
  ⟨by decide,
   best_streak_eq_max_temp
     [((738886 : ℤ), true), (738887, true), (738888, true), (738890, true)] 738890
     (by decide)⟩

/-- C3: the best streak is never smaller than the current streak, for
every history and reference date. -/
theorem best_streak_ge_current (records : List Record) (today : ℤ) :
    (calculate_streak records today).current ≤ (calculate_streak records today).best := by
  rw [calculate_streak_current, calculate_streak_best]
  exact currentSpecWalk_le _ _

/-- C4: for a window of at least one day, the completion rate is
`round(count_completed_since(today - days) / days * 100, 1)`, the
denominator being the requested window length whatever the history. -/
theorem completion_rate_formula (records : List Record) (today : ℤ) (days : ℕ)
    (h : 1 ≤ days) :
    get_completion_rate records today days =
      some (round1 ((countCompletedSince records (today - days) : ℚ) / (days : ℚ) * 100)) := by
  have hcount :
      (records.filter (fun r => decide (today - (days : ℤ) ≤ r.1) && r.2)).length =
        countCompletedSince records (today - days) := by
    unfold countCompletedSince
    congr 1
    apply List.filter_congr
    intro a _
    exact Bool.and_comm _ _
  simp only [get_completion_rate]
  rw [if_neg (by omega : ¬ days = 0), hcount]

/-- C4 witness: a 30-day window with 9 completions in range yields exactly
30.0. -/
theorem completion_rate_formula_witness :
    get_completion_rate
        [((71 : ℤ), true), (72, true), (73, true), (74, true), (75, true),
         (76, true), (77, true), (78, true), (79, true)] 100 30 =
      some (round1 ((countCompletedSince
        [((71 : ℤ), true), (72, true), (73, true), (74, true), (75, true),
         (76, true), (77, true), (78, true), (79, true)] (100 - (30 : ℕ)) : ℚ) /
          ((30 : ℕ) : ℚ) * 100)) ∧
    get_completion_rate
        [((71 : ℤ), true), (72, true), (73, true), (74, true), (75, true),
         (76, true), (77, true), (78, true), (79, true)] 100 30 = some 30 := by
  constructor
  · exact completion_rate_formula _ 100 30 (by norm_num)
  · norm_num [get_completion_rate, round1, roundHalfEven, List.filter]

/-- C6 (code bug): `get_completion_rate` has no guard for a zero-length
window; `completed / days` raises `ZeroDivisionError` (modelled: `none`),
it does not return 0 as the spec requires. -/
theorem completion_rate_zero_days_faults (records : List Record) (today : ℤ) :
    get_completion_rate records today 0 = none := rfl

/-- C5 counterexample: with a 1-day window and completed records on the
reference day and the day before, the query `date >= today - days` matches
both rows (the window spans `days + 1` calendar days), so the rate is
200.0, outside [0, 100]. -/
theorem completion_rate_exceeds_hundred :
    get_completion_rate [((0 : ℤ), true), (-1, true)] 0 1 = some 200 ∧
    ¬ ((200 : ℚ) ≤ 100) := by
  constructor
  · norm_num [get_completion_rate, round1, roundHalfEven, List.filter]
  · norm_num

/-- C5 (amended): the rate is always nonnegative, and is at most 100
whenever the number of completed rows matched by the window query does not
exceed the window length; because `date >= today - days` spans `days + 1`
calendar days and also matches future-dated rows, that count can exceed
`days` and the rate can exceed 100. -/
theorem completion_rate_bounds (records : List Record) (today : ℤ) (days : ℕ)
    (h1 : 1 ≤ days) :
    ∃ q, get_completion_rate records today days = some q ∧ 0 ≤ q ∧
      ((records.filter (fun r => decide (today - (days : ℤ) ≤ r.1) && r.2)).length ≤ days →
        q ≤ 100) := by
  simp only [get_completion_rate]
  rw [if_neg (by omega : ¬ days = 0)]
  refine ⟨_, rfl, ?_, fun h2 => ?_⟩
  · apply round1_nonneg
    positivity
  · apply round1_le_hundred
    have hd : (0 : ℚ) < (days : ℚ) := by exact_mod_cast h1
    have hn : ((records.filter (fun r => decide (today - (days : ℤ) ≤ r.1) && r.2)).length : ℚ)
        ≤ (days : ℚ) := by exact_mod_cast h2
    calc ((records.filter (fun r => decide (today - (days : ℤ) ≤ r.1) && r.2)).length : ℚ) /
          (days : ℚ) * 100
        ≤ 1 * 100 := by
          apply mul_le_mul_of_nonneg_right _ (by norm_num)
          exact div_le_one_of_le hn (le_of_lt hd)
      _ = 100 := by norm_num

/-- C5 amended witness: one completed record on the reference day with a
1-day window stays within the bounds. -/
theorem completion_rate_bounds_witness :
    ∃ q, get_completion_rate [((0 : ℤ), true)] 0 1 = some q ∧ 0 ≤ q ∧ q ≤ 100 := by
  obtain ⟨q, hq, hq0, hq100⟩ := completion_rate_bounds [((0 : ℤ), true)] 0 1 (by norm_num)
  exact ⟨q, hq, hq0, hq100 (by decide)⟩

/-- C7: the overview guards both divisions: today's completion rate is the
rounded `completed_today / total_habits * 100` when there are active
habits and exactly 0 when there are none, and the average streak is 0 when
the active-habit set is empty. -/
theorem overview_division_guards (habits : List Habit) (today : ℤ) :
    (0 < (get_overview_stats habits today).total_habits →
      (get_overview_stats habits today).completion_rate_today =
        round1 (((get_overview_stats habits today).completed_today : ℚ) /
          ((get_overview_stats habits today).total_habits : ℚ) * 100)) ∧
    ((get_overview_stats habits today).total_habits = 0 →
      (get_overview_stats habits today).completion_rate_today = 0) ∧
    (habits.filter (·.active) = [] →
      (get_overview_stats habits today).average_streak = 0) := by
  simp only [get_overview_stats]
  refine ⟨fun hpos => ?_, fun h0 => ?_, fun hemp => ?_⟩
  · rw [if_pos hpos]
  · rw [if_neg (by omega)]
  · rw [if_pos hemp]

/-- C7 witness: with no habits at all, the overview reports rate 0 and
average streak 0. -/
theorem overview_division_guards_witness :
    (get_overview_stats [] 0).completion_rate_today = 0 ∧
    (get_overview_stats [] 0).average_streak = 0 :=
  ⟨(overview_division_guards [] 0).2.1 rfl, (overview_division_guards [] 0).2.2 rfl⟩

/-- C8: a habit with no completed rows — in particular an unknown habit
id, whose query returns no rows — gets streak {0, 0}, completion rate 0.0
and no best weekday, with no failure. -/
theorem empty_history_stats (records : List Record) (today : ℤ) (days : ℕ)
    (hdays : 1 ≤ days) (hno : ∀ r ∈ records, r.2 = false) :
    calculate_streak records today = ⟨0, 0⟩ ∧
    get_completion_rate records today days = some 0 ∧
    get_best_weekday records = none := by
  have hfil : records.filter (·.2) = [] := by
    apply List.filter_eq_nil_iff.mpr
    intro a ha
    simp [hno a ha]
  refine ⟨?_, ?_, ?_⟩
  · have hdat : completedDatesDesc records = [] := by
      unfold completedDatesDesc
      rw [hfil]
      rfl
    unfold calculate_streak
    rw [if_pos hdat]
  · have hfil2 : records.filter (fun r => decide (today - (days : ℤ) ≤ r.1) && r.2) = [] := by
      apply List.filter_eq_nil_iff.mpr
      intro a ha
      simp [hno a ha]
    simp only [get_completion_rate]
    rw [if_neg (by omega : ¬ days = 0), hfil2]
    norm_num [round1, roundHalfEven]
  · unfold get_best_weekday
    rw [if_pos hfil]

/-- C8 witness: a history holding only a completed=false row behaves as an
empty history for all three statistics. -/
theorem empty_history_stats_witness :
    calculate_streak [((5 : ℤ), false)] 10 = ⟨0, 0⟩ ∧
    get_completion_rate [((5 : ℤ), false)] 10 30 = some 0 ∧
    get_best_weekday [((5 : ℤ), false)] = none :=
  empty_history_stats [((5 : ℤ), false)] 10 30 (by norm_num) (by decide)

/-- C9: when a habit has at least one completed row, the returned weekday
label is that of a bucket whose count is maximal among the 7 weekday
buckets. -/
theorem best_weekday_maximal (records : List Record)
    (h : ∃ r ∈ records, r.2 = true) :
    get_best_weekday records = some (weekdays.getD (bestWeekdayIndex records) "") ∧
    ∀ w, w < 7 → weekdayCount records w ≤ weekdayCount records (bestWeekdayIndex records) := by
  constructor
  · unfold get_best_weekday
    rw [if_neg ?hne]
    case hne =>
      intro hfil
      obtain ⟨r, hr, hr2⟩ := h
      have hmem : r ∈ records.filter (·.2) := List.mem_filter.mpr ⟨hr, hr2⟩
      rw [hfil] at hmem
      cases hmem
  · intro w hw
    have hwmem : w ∈ List.range 7 := List.mem_range.mpr hw
    exact foldl_argmax_mem (weekdayCount records) (List.range 7) 0 w hwmem

/-- C9 witness: completions on a Friday and a Monday (ordinals 738890 and
738886); the tie resolves to the Monday bucket, whose count is at least
that of the Friday bucket. -/
theorem best_weekday_maximal_witness :
    get_best_weekday [((738890 : ℤ), true), (738886, true)] = some "Segunda" ∧
    weekdayCount [((738890 : ℤ), true), (738886, true)] 5 ≤
      weekdayCount [((738890 : ℤ), true), (738886, true)]
        (bestWeekdayIndex [((738890 : ℤ), true), (738886, true)]) :=
  ⟨by decide,
   (best_weekday_maximal [((738890 : ℤ), true), (738886, true)]
     ⟨(738890, true), by decide, rfl⟩).2 5 (by norm_num)⟩

/-- C10: a completed record dated strictly after `today` forces the
current streak to 0: the descending walk compares the most recent
(future-dated) row against `expected = today` and stops there, even when
today and all preceding days are completed. -/
theorem future_record_kills_current (records : List Record) (today : ℤ)
    (h : ∃ r ∈ records, r.2 = true ∧ today < r.1) :
    (calculate_streak records today).current = 0 := by
  obtain ⟨⟨d, b⟩, hmem, hb, hd⟩ := h
  simp only at hb
  subst hb
  have hmemd : d ∈ completedDatesDesc records := mem_completedDatesDesc.mpr hmem
  rw [calculate_streak_current]
  cases hdat : completedDatesDesc records with
  | nil => rfl
  | cons x xs =>
    have hsorted := completedDatesDesc_sorted records
    rw [hdat] at hsorted hmemd
    have hx : today < x := by
      rcases List.mem_cons.mp hmemd with rfl | hmem2
      · exact hd
      · exact lt_of_lt_of_le hd (List.rel_of_sorted_cons hsorted d hmem2)
    have hxt : x ≠ today := by omega
    simp [currentSpecWalk, hxt]

/-- C10 witness: today (10) and the day before are completed, but so is
the future day 11; the current streak is 0. -/
theorem future_record_kills_current_witness :
    (calculate_streak [((11 : ℤ), true), (10, true), (9, true)] 10).current = 0 :=
  future_record_kills_current [((11 : ℤ), true), (10, true), (9, true)] 10
    ⟨(11, true), by decide, rfl, by decide⟩
